import Mathlib

/-!
Verification of the PRAM search step-count model (`paraCompEx1.py`).

The source exposes a sequential linear search, three PRAM search variants
(EREW, CREW, CRCW with a priority conflict rule) that pair a direct
first-occurrence lookup with a closed-form parallel step count, and an
aggregator (`speedups`) that runs all four on the same input, asserts the
indices agree, and computes speedup ratios.

Embedding choices:
* A sequence of symbols is a `List α` with decidable equality; the Python
  string is a list of characters.
* Python `int` becomes `Int`; `math.ceil(n / p)` on the real quotient becomes
  `Int.ceil` on the exact rational quotient; `ceil(log2(p))` for an integer
  `p > 1` becomes `Nat.clog 2 p`, the ceiling base-2 logarithm.
* Python float division in the speedup computation becomes exact division in
  `ℚ`; the produced `float('inf')` becomes `none : Option ℚ` (so
  `some q` models an ordinary finite speedup value).
* Exceptions (ZeroDivisionError from `ceil(n / p)` when `p = 0`, and the
  aggregator's failing `assert`) become `Except ParaError`.
* The aggregator `speedups(n, p, target_present)` first asks the excluded
  input-generation collaborator for a sequence and target; `evaluate` below
  is its core, taking the generated `(sequence, target)` explicitly.
-/

namespace ParaComp

/-- Errors the Python code can raise: division by zero inside
`ceil(n / p)` when `p = 0`, and the aggregator's consistency `assert`. -/
inductive ParaError where
  | zeroDivisionError : ParaError
  | assertionError : ParaError
  deriving DecidableEq, Repr

/-- Source expression `math.ceil(n / p)` for a nonnegative length `n` and an integer `p ≠ 0`,
computed by integer arithmetic: `(n + p - 1) / p` rounding down when
`p > 0`, and `-(n / |p|)` (negated floor) when `p < 0`.  The lemma
`ceil_div_eq_ceil` below proves this equal to the ceiling of the exact
rational quotient `n / p`, which is what the source computes. -/
def ceil_div (n : Nat) (p : Int) : Int :=
  if 0 < p then ((n + p.toNat - 1) / p.toNat : Nat)
  else -(((n / (-p).toNat : Nat) : Int))

/-- Source expression `ceil(log2(p)) if p > 1 else 0`: the reduction-phase step count charged
by the EREW and CREW models. -/
def reduction_steps (p : Int) : Int :=
  if 1 < p then (Nat.clog 2 p.toNat : Int) else 0

/-- Loop of `seq_search`: walks the list carrying the current position `i`
and the comparison counter `steps`, incrementing `steps` once per visited
element and stopping at the first match. -/
def seq_search_go [DecidableEq α] (t : α) : List α → Nat → Nat → Int × Nat
  | [], _, steps => (-1, steps)
  | x :: xs, i, steps =>
      if x = t then ((i : Int), steps + 1) else seq_search_go t xs (i + 1) (steps + 1)

/-- Function `seq_search(s, target)`: sequential linear search returning
`(index or -1, steps)` where `steps` counts the comparisons performed. -/
def seq_search [DecidableEq α] (s : List α) (t : α) : Int × Nat :=
  seq_search_go t s 0 0

/-- Loop of `find`: position of the first occurrence starting from offset
`i`, or `-1`. -/
def find_go [DecidableEq α] (t : α) : List α → Nat → Int
  | [], _ => -1
  | x :: xs, i => if x = t then (i : Int) else find_go t xs (i + 1)

/-- Python's `s.find(target)` for a single-symbol target: index of the first
occurrence of `t` in `s`, or `-1` when absent. -/
def find [DecidableEq α] (s : List α) (t : α) : Int :=
  find_go t s 0

/-- Function `pram_erew_search(s, target, p)`: first-occurrence index together with
`ceil(n/p)` search steps plus the `ceil(log2 p)` EREW reduction steps.
`p = 0` raises ZeroDivisionError inside `ceil(n / p)`. -/
def pram_erew_search [DecidableEq α] (s : List α) (t : α) (p : Int) :
    Except ParaError (Int × Int) :=
  if p = 0 then Except.error ParaError.zeroDivisionError
  else
    let n := s.length
    let search_steps := ceil_div n p
    let idx := find s t
    Except.ok (idx, search_steps + reduction_steps p)

/-- Function `pram_crew_search(s, target, p)`: identical formula to the EREW
variant in this design. -/
def pram_crew_search [DecidableEq α] (s : List α) (t : α) (p : Int) :
    Except ParaError (Int × Int) :=
  if p = 0 then Except.error ParaError.zeroDivisionError
  else
    let n := s.length
    let search_steps := ceil_div n p
    let idx := find s t
    Except.ok (idx, search_steps + reduction_steps p)

/-- The default conflict-resolution rule of `pram_crcw_search`. -/
def priority_rule : String := "priority"

/-- A textbook CRCW conflict rule other than priority, used to probe how
`pram_crcw_search` treats its `rule` argument. -/
def arbitrary_rule : String := "arbitrary"

/-- Function `pram_crcw_search(s, target, p, rule='priority')`: first-occurrence
index with `ceil(n/p)` steps and no reduction term.  The `rule` argument is
accepted but never inspected by the source body. -/
def pram_crcw_search [DecidableEq α] (s : List α) (t : α) (p : Int)
    (rule : String) : Except ParaError (Int × Int) :=
  if p = 0 then Except.error ParaError.zeroDivisionError
  else
    let n := s.length
    let idx := find s t
    let steps := ceil_div n p
    Except.ok (idx, steps)

/-- One entry of the aggregator's result dictionary:
`model -> (index, speedup, steps)`, with `speedup = none` modelling
`float('inf')`. -/
structure EvalEntry where
  index : Int
  speedup : Option ℚ
  steps : Int
  deriving DecidableEq, Repr

/-- The aggregator's four-entry result dictionary, keyed by the fixed model
set {Sequential, EREW, CREW, CRCW}. -/
structure EvalResult where
  sequential : EvalEntry
  erew : EvalEntry
  crew : EvalEntry
  crcw : EvalEntry
  deriving DecidableEq, Repr

/-- The inner `spd` helper of `speedups`: `t_seq / ts` when `ts > 0`,
otherwise `float('inf')` (modelled `none`). -/
def spd (t_seq : Nat) (ts : Int) : Option ℚ :=
  if 0 < ts then some ((t_seq : ℚ) / (ts : ℚ)) else none

/-- Core of `speedups(n, p, target_present)` once the excluded collaborator
has produced the sequence `s` and the `target`: runs all four searches,
checks the chained assertion
`idx_seq == idx_erew == idx_crew == idx_crcw or idx_seq == -1`, and builds
the `model -> (index, speedup, steps)` dictionary. -/
def evaluate [DecidableEq α] (s : List α) (t : α) (p : Int) :
    Except ParaError EvalResult := do
  let seqRes := seq_search s t
  let idx_seq := seqRes.1
  let t_seq := seqRes.2
  let erewRes ← pram_erew_search s t p
  let crewRes ← pram_crew_search s t p
  let crcwRes ← pram_crcw_search s t p priority_rule
  if (idx_seq = erewRes.1 ∧ erewRes.1 = crewRes.1 ∧ crewRes.1 = crcwRes.1) ∨
      idx_seq = -1 then
    Except.ok
      { sequential := { index := idx_seq, speedup := some 1, steps := (t_seq : Int) }
        erew := { index := erewRes.1, speedup := spd t_seq erewRes.2, steps := erewRes.2 }
        crew := { index := crewRes.1, speedup := spd t_seq crewRes.2, steps := crewRes.2 }
        crcw := { index := crcwRes.1, speedup := spd t_seq crcwRes.2, steps := crcwRes.2 } }
  else
    Except.error ParaError.assertionError

/-- Characterisation of the rounded-up quotient on naturals: it is the least
`c` with `n ≤ q * c`. -/
lemma nat_ceil_le_iff (n q c : Nat) (hq : 0 < q) :
    (n + q - 1) / q ≤ c ↔ n ≤ q * c := by
  rw [Nat.div_le_iff_le_mul_add_pred hq]
  omega

/-- The rounded-up quotient covers `n`: `n ≤ q * ((n + q - 1) / q)`. -/
lemma nat_le_ceil_mul (n q : Nat) (hq : 0 < q) :
    n ≤ q * ((n + q - 1) / q) :=
  (nat_ceil_le_iff n q _ hq).1 le_rfl

/-- For a positive processor count, `ceil_div` is the natural-number
rounded-up quotient. -/
lemma ceil_div_pos_eq (n : Nat) (p : Int) (hp : 0 < p) :
    ceil_div n p = (((n + p.toNat - 1) / p.toNat : Nat) : Int) := by
  simp [ceil_div, hp]

/-- Faithfulness of the integer-arithmetic `ceil_div` to the source's
`math.ceil(n / p)`: for `p ≠ 0` it equals the ceiling of the exact rational
quotient. -/
lemma ceil_div_eq_ceil (n : Nat) (p : Int) (hp : p ≠ 0) :
    ceil_div n p = Int.ceil ((n : ℚ) / (p : ℚ)) := by
  rcases lt_or_gt_of_ne hp with hneg | hpos
  · have hm : ((-p).toNat : Int) = -p := Int.toNat_of_nonneg (by omega)
    have hmQ : ((((-p).toNat : Nat)) : ℚ) = ((-p : Int) : ℚ) := by exact_mod_cast hm
    have hpm : (p : ℚ) = -(((-p).toNat : Nat) : ℚ) := by
      rw [hmQ]
      push_cast
      ring
    rw [ceil_div, if_neg (by omega), hpm, div_neg, Int.ceil_neg]
    have hf : ⌊((n : ℚ)) / (((-p).toNat : Nat) : ℚ)⌋ = (n : Int) / ((-p).toNat : Int) := by
      have h3 := Rat.floor_intCast_div_natCast (n : Int) (-p).toNat
      simpa using h3
    rw [hf]
    norm_cast
  · have hq0 : 0 < p.toNat := by omega
    have hm : ((p.toNat : Nat) : Int) = p := Int.toNat_of_nonneg (by omega)
    have hpq : (p : ℚ) = ((p.toNat : Nat) : ℚ) := by exact_mod_cast hm.symm
    have hq0Q : (0 : ℚ) < ((p.toNat : Nat) : ℚ) := by exact_mod_cast hq0
    rw [ceil_div_pos_eq n p hpos, hpq]
    set c : Nat := (n + p.toNat - 1) / p.toNat with hc
    symm
    rw [Int.ceil_eq_iff]
    constructor
    · rw [lt_div_iff hq0Q]
      rcases Nat.eq_zero_or_pos c with h0 | hcpos
      · rw [h0]
        have hn0 : (0 : ℚ) ≤ (n : ℚ) := Nat.cast_nonneg n
        push_cast
        nlinarith
      · have hlt : p.toNat * (c - 1) < n := by
          by_contra hcon
          push_neg at hcon
          have h6 := (nat_ceil_le_iff n p.toNat (c - 1) hq0).2 hcon
          omega
        have hQ : ((p.toNat : Nat) : ℚ) * (((c - 1 : Nat)) : ℚ) < (n : ℚ) := by
          exact_mod_cast hlt
        have hs : ((c - 1 : Nat) : ℚ) = (c : ℚ) - 1 := by
          rw [Nat.cast_sub hcpos]
          norm_num
        rw [hs] at hQ
        push_cast
        nlinarith
    · rw [div_le_iff hq0Q]
      have h5 : n ≤ p.toNat * c := nat_le_ceil_mul n p.toNat hq0
      have h5Q : (n : ℚ) ≤ ((p.toNat : Nat) : ℚ) * (c : ℚ) := by exact_mod_cast h5
      push_cast
      nlinarith

/-- For a negative processor count the rounded quotient is nonpositive. -/
lemma ceil_div_nonpos (n : Nat) (p : Int) (hp : p < 0) : ceil_div n p ≤ 0 := by
  rw [ceil_div, if_neg (by omega)]
  exact neg_nonpos.mpr (by positivity)

/-- For processor counts `0 < p1 ≤ p2`, the search-phase step count at `p2`
never exceeds the one at `p1`. -/
lemma ceil_div_antitone (n : Nat) (p1 p2 : Int) (h1 : 0 < p1) (h12 : p1 ≤ p2) :
    ceil_div n p2 ≤ ceil_div n p1 := by
  rw [ceil_div_pos_eq n p1 h1, ceil_div_pos_eq n p2 (lt_of_lt_of_le h1 h12)]
  have hq1 : 0 < p1.toNat := by omega
  have hq2 : 0 < p2.toNat := by omega
  have hle : p1.toNat ≤ p2.toNat := by omega
  have hnat : (n + p2.toNat - 1) / p2.toNat ≤ (n + p1.toNat - 1) / p1.toNat := by
    rw [nat_ceil_le_iff n p2.toNat _ hq2]
    calc n ≤ p1.toNat * ((n + p1.toNat - 1) / p1.toNat) := nat_le_ceil_mul n _ hq1
      _ ≤ p2.toNat * ((n + p1.toNat - 1) / p1.toNat) :=
          Nat.mul_le_mul_right _ hle
  exact_mod_cast hnat

/-- The reduction term is never negative. -/
lemma reduction_steps_nonneg (p : Int) : 0 ≤ reduction_steps p := by
  unfold reduction_steps
  split
  · exact Int.ofNat_nonneg _
  · exact le_refl 0

/-- No reduction phase is charged for a single processor (or fewer). -/
lemma reduction_steps_of_le_one (p : Int) (hp : p ≤ 1) : reduction_steps p = 0 := by
  unfold reduction_steps
  rw [if_neg (by omega)]

/-- With more than one processor the reduction phase costs at least one
step. -/
lemma reduction_steps_pos (p : Int) (hp : 1 < p) : 0 < reduction_steps p := by
  unfold reduction_steps
  rw [if_pos hp]
  have h : 0 < Nat.clog 2 p.toNat := Nat.clog_pos (by norm_num) (by omega)
  exact_mod_cast h

/-- Value `ceil(log2 2) = 1`, used to evaluate step counts at `p = 2`. -/
lemma clog_two_two : Nat.clog 2 2 = 1 :=
  Nat.clog_eq_one (by norm_num) (by norm_num)

/-- When the target is absent, `find_go` reports `-1` from any offset. -/
lemma find_go_of_not_mem [DecidableEq α] (t : α) :
    ∀ (s : List α) (i : Nat), t ∉ s → find_go t s i = -1 := by
  intro s
  induction s with
  | nil => intro i _; rfl
  | cons x xs ih =>
    intro i h
    simp only [List.mem_cons, not_or] at h
    have hx : ¬ x = t := fun he => h.1 he.symm
    simp only [find_go, if_neg hx]
    exact ih (i + 1) h.2

/-- When the first occurrence of the target is at position `k`, `find_go`
started at offset `i` reports `i + k`. -/
lemma find_go_of_first [DecidableEq α] (t : α) :
    ∀ (s : List α) (k i : Nat) (hk : k < s.length), s.get ⟨k, hk⟩ = t →
      (∀ j (hj : j < s.length), j < k → s.get ⟨j, hj⟩ ≠ t) →
      find_go t s i = ((i + k : Nat) : Int) := by
  intro s
  induction s with
  | nil => intro k i hk; simp at hk
  | cons x xs ih =>
    intro k i hk h1 h2
    cases k with
    | zero =>
      have hx : x = t := h1
      simp [find_go, hx]
    | succ k' =>
      have hx : ¬ x = t := by
        have h0 := h2 0 (by simp) (Nat.succ_pos k')
        simpa using h0
      simp only [find_go, if_neg hx]
      have hk' : k' < xs.length := by
        simpa [List.length_cons] using hk
      have h1' : xs.get ⟨k', hk'⟩ = t := by
        simpa using h1
      have h2' : ∀ j (hj : j < xs.length), j < k' → xs.get ⟨j, hj⟩ ≠ t := by
        intro j hj hjk
        have h3 := h2 (j + 1) (by simpa [List.length_cons] using Nat.succ_lt_succ hj)
          (Nat.succ_lt_succ hjk)
        simpa using h3
      rw [ih k' (i + 1) hk' h1' h2']
      congr 1
      omega

/-- When the target is absent, the sequential loop visits every element:
it returns index `-1` and adds the list length to the step counter. -/
lemma seq_search_go_of_not_mem [DecidableEq α] (t : α) :
    ∀ (s : List α) (i st : Nat), t ∉ s →
      seq_search_go t s i st = (-1, st + s.length) := by
  intro s
  induction s with
  | nil => intro i st _; rfl
  | cons x xs ih =>
    intro i st h
    simp only [List.mem_cons, not_or] at h
    have hx : ¬ x = t := fun he => h.1 he.symm
    simp only [seq_search_go, if_neg hx]
    rw [ih (i + 1) (st + 1) h.2, List.length_cons]
    simp only [Prod.mk.injEq, true_and]
    omega

/-- When the first occurrence of the target is at position `k`, the
sequential loop stops there, having charged one comparison per visited
position (`k + 1` of them). -/
lemma seq_search_go_of_first [DecidableEq α] (t : α) :
    ∀ (s : List α) (k i st : Nat) (hk : k < s.length), s.get ⟨k, hk⟩ = t →
      (∀ j (hj : j < s.length), j < k → s.get ⟨j, hj⟩ ≠ t) →
      seq_search_go t s i st = (((i + k : Nat) : Int), st + k + 1) := by
  intro s
  induction s with
  | nil => intro k i st hk; simp at hk
  | cons x xs ih =>
    intro k i st hk h1 h2
    cases k with
    | zero =>
      have hx : x = t := h1
      simp [seq_search_go, hx]
    | succ k' =>
      have hx : ¬ x = t := by
        have h0 := h2 0 (by simp) (Nat.succ_pos k')
        simpa using h0
      simp only [seq_search_go, if_neg hx]
      have hk' : k' < xs.length := by
        simpa [List.length_cons] using hk
      have h1' : xs.get ⟨k', hk'⟩ = t := by
        simpa using h1
      have h2' : ∀ j (hj : j < xs.length), j < k' → xs.get ⟨j, hj⟩ ≠ t := by
        intro j hj hjk
        have h3 := h2 (j + 1) (by simpa [List.length_cons] using Nat.succ_lt_succ hj)
          (Nat.succ_lt_succ hjk)
        simpa using h3
      rw [ih k' (i + 1) (st + 1) hk' h1' h2']
      simp only [Prod.mk.injEq]
      refine ⟨?_, by omega⟩
      congr 1
      omega

/-- The index component of the sequential loop agrees with `find_go` at
every offset. -/
lemma seq_search_go_fst [DecidableEq α] (t : α) :
    ∀ (s : List α) (i st : Nat), (seq_search_go t s i st).1 = find_go t s i := by
  intro s
  induction s with
  | nil => intro i st; rfl
  | cons x xs ih =>
    intro i st
    by_cases hx : x = t
    · simp [seq_search_go, find_go, hx]
    · simp only [seq_search_go, find_go, if_neg hx]
      exact ih (i + 1) (st + 1)

/-- The index found by `seq_search` is exactly Python's `s.find(target)`:
both report the first occurrence, or `-1`. -/
lemma seq_search_fst_eq_find [DecidableEq α] (s : List α) (t : α) :
    (seq_search s t).1 = find s t :=
  seq_search_go_fst t s 0 0

/-- For `p ≠ 0` the EREW search returns its pair unconditionally. -/
lemma pram_erew_search_eq [DecidableEq α] (s : List α) (t : α) (p : Int)
    (hp : p ≠ 0) :
    pram_erew_search s t p =
      Except.ok (find s t, ceil_div s.length p + reduction_steps p) := by
  simp [pram_erew_search, hp]

/-- For `p ≠ 0` the CREW search returns its pair unconditionally. -/
lemma pram_crew_search_eq [DecidableEq α] (s : List α) (t : α) (p : Int)
    (hp : p ≠ 0) :
    pram_crew_search s t p =
      Except.ok (find s t, ceil_div s.length p + reduction_steps p) := by
  simp [pram_crew_search, hp]

/-- For `p ≠ 0` the CRCW search returns its pair unconditionally, whatever
conflict rule is passed. -/
lemma pram_crcw_search_eq [DecidableEq α] (s : List α) (t : α) (p : Int)
    (hp : p ≠ 0) (rule : String) :
    pram_crcw_search s t p rule =
      Except.ok (find s t, ceil_div s.length p) := by
  simp [pram_crcw_search, hp]

/-- For `p ≠ 0` the aggregator's assertion passes (all indices are the same
first-occurrence lookup) and it returns the explicit four-entry mapping. -/
lemma evaluate_of_ne_zero [DecidableEq α] (s : List α) (t : α) (p : Int)
    (hp : p ≠ 0) :
    evaluate s t p = Except.ok
      { sequential := { index := find s t, speedup := some 1,
                        steps := ((seq_search s t).2 : Int) }
        erew := { index := find s t,
                  speedup := spd (seq_search s t).2 (ceil_div s.length p + reduction_steps p),
                  steps := ceil_div s.length p + reduction_steps p }
        crew := { index := find s t,
                  speedup := spd (seq_search s t).2 (ceil_div s.length p + reduction_steps p),
                  steps := ceil_div s.length p + reduction_steps p }
        crcw := { index := find s t,
                  speedup := spd (seq_search s t).2 (ceil_div s.length p),
                  steps := ceil_div s.length p } } := by
  have hfst := seq_search_fst_eq_find s t
  rw [evaluate]
  rw [pram_erew_search_eq s t p hp, pram_crew_search_eq s t p hp,
    pram_crcw_search_eq s t p hp priority_rule]
  simp only [bind, Except.bind, hfst]
  rw [if_pos (Or.inl ⟨trivial, trivial, trivial⟩)]

/-- At `p = 0`, the first PRAM call raises ZeroDivisionError, which the
aggregator propagates. -/
lemma evaluate_zero [DecidableEq α] (s : List α) (t : α) :
    evaluate s t 0 = Except.error ParaError.zeroDivisionError := by
  rw [evaluate]
  simp [pram_erew_search, bind, Except.bind]

/-- C1: for a nonempty sequence and `p ≥ 1`, each PRAM search returns the
first-occurrence index of the target (`-1` when absent) paired with the
closed-form cost: `⌈n/p⌉` search steps plus, for EREW and CREW only, the
`⌈log₂ p⌉` reduction steps charged when `p > 1`. -/
theorem pram_search_index_and_steps [DecidableEq α] (s : List α) (t : α)
    (p : Int) (hp : 1 ≤ p) (hn : 1 ≤ s.length) :
    (pram_erew_search s t p =
      Except.ok (find s t,
        Int.ceil ((s.length : ℚ) / (p : ℚ)) +
          (if 1 < p then (Nat.clog 2 p.toNat : Int) else 0))) ∧
    (pram_crew_search s t p =
      Except.ok (find s t,
        Int.ceil ((s.length : ℚ) / (p : ℚ)) +
          (if 1 < p then (Nat.clog 2 p.toNat : Int) else 0))) ∧
    (pram_crcw_search s t p priority_rule =
      Except.ok (find s t, Int.ceil ((s.length : ℚ) / (p : ℚ)))) ∧
    (∀ (k : Nat) (hk : k < s.length), s.get ⟨k, hk⟩ = t →
      (∀ (j : Nat) (hj : j < s.length), j < k → s.get ⟨j, hj⟩ ≠ t) →
      find s t = (k : Int)) ∧
    (t ∉ s → find s t = -1) := by
  have hp0 : p ≠ 0 := by omega
  have hceil := ceil_div_eq_ceil s.length p hp0
  refine ⟨?_, ?_, ?_, ?_, ?_⟩
  · rw [pram_erew_search_eq s t p hp0, hceil]
    rfl
  · rw [pram_crew_search_eq s t p hp0, hceil]
    rfl
  · rw [pram_crcw_search_eq s t p hp0 priority_rule, hceil]
  · intro k hk h1 h2
    simpa [find] using find_go_of_first t s k 0 hk h1 h2
  · intro h
    exact find_go_of_not_mem t s 0 h

/-- Witness for C1 at `s = [10, 20, 30]`, `t = 20` (position 1), `p = 1`. -/
theorem pram_search_index_and_steps_witness :
    ((1 : Int) ≤ 1) ∧ (1 ≤ ([10, 20, 30] : List Nat).length) ∧
    pram_erew_search ([10, 20, 30] : List Nat) 20 1 = Except.ok (1, 3) ∧
    pram_crcw_search ([10, 20, 30] : List Nat) 20 1 priority_rule = Except.ok (1, 3) ∧
    find ([10, 20, 30] : List Nat) 20 = 1 ∧
    find ([10, 20, 30] : List Nat) 99 = -1 := by
  have h := pram_search_index_and_steps ([10, 20, 30] : List Nat) 20 1 (by decide) (by decide)
  have hceil : Int.ceil ((([10, 20, 30] : List Nat).length : ℚ) / ((1 : Int) : ℚ)) =
      ceil_div 3 1 := (ceil_div_eq_ceil 3 1 (by decide)).symm
  refine ⟨by decide, by decide, ?_, ?_, ?_, ?_⟩
  · rw [h.1, hceil]
    rfl
  · rw [h.2.2.1, hceil]
    rfl
  · exact h.2.2.2.1 1 (by decide) (by decide) (by decide)
  · exact (pram_search_index_and_steps ([10, 20, 30] : List Nat) 99 1 (by decide)
      (by decide)).2.2.2.2 (by decide)

/-- C2: the sequential search stops at the first occurrence `k`, having
counted `k + 1` comparisons, and reports `(-1, n)` when the target is
absent. -/
theorem seq_search_spec [DecidableEq α] (s : List α) (t : α) :
    (∀ (k : Nat) (hk : k < s.length), s.get ⟨k, hk⟩ = t →
      (∀ (j : Nat) (hj : j < s.length), j < k → s.get ⟨j, hj⟩ ≠ t) →
      seq_search s t = ((k : Int), k + 1)) ∧
    (t ∉ s → seq_search s t = (-1, s.length)) := by
  constructor
  · intro k hk h1 h2
    have h := seq_search_go_of_first t s k 0 0 hk h1 h2
    simpa [seq_search] using h
  · intro h
    have h0 := seq_search_go_of_not_mem t s 0 0 h
    simpa [seq_search] using h0

/-- Witness for C2: match at position 1 costs 2 comparisons; an absent
target costs all 3. -/
theorem seq_search_spec_witness :
    seq_search ([10, 20, 30] : List Nat) 20 = (1, 2) ∧
    seq_search ([10, 20, 30] : List Nat) 5 = (-1, 3) := by
  constructor
  · exact (seq_search_spec ([10, 20, 30] : List Nat) 20).1 1 (by decide) (by decide) (by decide)
  · exact (seq_search_spec ([10, 20, 30] : List Nat) 5).2 (by decide)

/-- C7: EREW and CREW searches agree exactly (same index, same steps) on
every input. -/
theorem erew_crew_identical [DecidableEq α] (s : List α) (t : α) (p : Int)
    (hp : 1 ≤ p) : pram_erew_search s t p = pram_crew_search s t p := rfl

/-- Witness for C7 at a concrete input with `p = 2`. -/
theorem erew_crew_identical_witness :
    ((1 : Int) ≤ 2) ∧
    pram_erew_search ([10, 20] : List Nat) 10 2 = pram_crew_search ([10, 20] : List Nat) 10 2 :=
  ⟨by decide, erew_crew_identical ([10, 20] : List Nat) 10 2 (by decide)⟩

/-- C9: for `p ≥ 1` the steps component of each PRAM search is a function
of the sequence length and `p` alone: two runs on equal-length sequences
with arbitrary targets report equal step counts. -/
theorem steps_depend_only_on_length [DecidableEq α] (s1 s2 : List α)
    (t1 t2 : α) (p : Int) (hp : 1 ≤ p) (hlen : s1.length = s2.length)
    (rule : String) :
    (pram_erew_search s1 t1 p).map Prod.snd = (pram_erew_search s2 t2 p).map Prod.snd ∧
    (pram_crew_search s1 t1 p).map Prod.snd = (pram_crew_search s2 t2 p).map Prod.snd ∧
    (pram_crcw_search s1 t1 p rule).map Prod.snd =
      (pram_crcw_search s2 t2 p rule).map Prod.snd := by
  have hp0 : p ≠ 0 := by omega
  refine ⟨?_, ?_, ?_⟩ <;>
    simp [pram_erew_search_eq _ _ _ hp0, pram_crew_search_eq _ _ _ hp0,
      pram_crcw_search_eq _ _ _ hp0, Except.map, hlen]

/-- Witness for C9: one sequence contains the target, the other does not,
yet the step counts agree. -/
theorem steps_depend_only_on_length_witness :
    ((1 : Int) ≤ 2) ∧ (([10, 20] : List Nat).length = ([7, 8] : List Nat).length) ∧
    (pram_crcw_search ([10, 20] : List Nat) 20 2 priority_rule).map Prod.snd =
      (pram_crcw_search ([7, 8] : List Nat) 9 2 priority_rule).map Prod.snd := by
  refine ⟨by decide, by decide, ?_⟩
  exact (steps_depend_only_on_length ([10, 20] : List Nat) ([7, 8] : List Nat) 20 9 2
    (by decide) (by decide) priority_rule).2.2

/-- C10: all four searches compute the same first-occurrence index, for any
sequence (duplicates included), so the aggregator's consistency assertion
can never fire. -/
theorem consistency_assert_unreachable [DecidableEq α] (s : List α) (t : α)
    (p : Int) :
    (seq_search s t).1 = find s t ∧
    (∀ r, pram_erew_search s t p = Except.ok r → r.1 = find s t) ∧
    (∀ r, pram_crew_search s t p = Except.ok r → r.1 = find s t) ∧
    (∀ (rule : String) r, pram_crcw_search s t p rule = Except.ok r → r.1 = find s t) ∧
    evaluate s t p ≠ Except.error ParaError.assertionError := by
  refine ⟨seq_search_fst_eq_find s t, ?_, ?_, ?_, ?_⟩
  · intro r h
    by_cases hp : p = 0
    · rw [hp] at h
      simp [pram_erew_search] at h
    · rw [pram_erew_search_eq s t p hp] at h
      injection h with h1
      rw [← h1]
  · intro r h
    by_cases hp : p = 0
    · rw [hp] at h
      simp [pram_crew_search] at h
    · rw [pram_crew_search_eq s t p hp] at h
      injection h with h1
      rw [← h1]
  · intro rule r h
    by_cases hp : p = 0
    · rw [hp] at h
      simp [pram_crcw_search] at h
    · rw [pram_crcw_search_eq s t p hp rule] at h
      injection h with h1
      rw [← h1]
  · intro hcontra
    by_cases hp : p = 0
    · rw [hp, evaluate_zero] at hcontra
      simp at hcontra
    · rw [evaluate_of_ne_zero s t p hp] at hcontra
      simp at hcontra

/-- Witness for C10 on a sequence with a duplicate symbol. -/
theorem consistency_assert_unreachable_witness :
    (seq_search ([10, 10, 30] : List Nat) 10).1 = find ([10, 10, 30] : List Nat) 10 ∧
    evaluate ([10, 10, 30] : List Nat) 10 2 ≠ Except.error ParaError.assertionError :=
  ⟨(consistency_assert_unreachable ([10, 10, 30] : List Nat) 10 2).1,
   (consistency_assert_unreachable ([10, 10, 30] : List Nat) 10 2).2.2.2.2⟩

/-- C3 counterexample: with `n = 1`, moving from one processor to two
raises the EREW (and CREW) step count from 1 to 2, because the reduction
term grows while the search phase is already a single round. -/
theorem erew_steps_increase_with_p :
    ((1 : Int) ≤ 1) ∧ ((1 : Int) < 2) ∧
    pram_erew_search ([0] : List Nat) 0 1 = Except.ok (0, 1) ∧
    pram_erew_search ([0] : List Nat) 0 2 = Except.ok (0, 2) ∧
    ¬ ((2 : Int) ≤ 1) := by
  have hred : reduction_steps 2 = 1 := by
    rw [reduction_steps, if_pos (by decide)]
    rw [show ((2 : Int).toNat) = 2 from rfl, clog_two_two]
    norm_num
  refine ⟨by decide, by decide, rfl, ?_, by decide⟩
  rw [pram_erew_search_eq ([0] : List Nat) 0 2 (by decide), hred]
  rfl

/-- C3 amended: the sequential step count does not depend on `p` at all,
and the CRCW step count is non-increasing in `p`; the EREW/CREW counts are
not monotone (see the counterexample). -/
theorem crcw_steps_antitone [DecidableEq α] (s : List α) (t : α)
    (p1 p2 : Int) (h1 : 1 ≤ p1) (h12 : p1 ≤ p2) :
    pram_crcw_search s t p1 priority_rule =
      Except.ok (find s t, ceil_div s.length p1) ∧
    pram_crcw_search s t p2 priority_rule =
      Except.ok (find s t, ceil_div s.length p2) ∧
    ceil_div s.length p2 ≤ ceil_div s.length p1 :=
  ⟨pram_crcw_search_eq s t p1 (by omega) priority_rule,
   pram_crcw_search_eq s t p2 (by omega) priority_rule,
   ceil_div_antitone s.length p1 p2 (by omega) h12⟩

/-- Witness for the amended C3 at `n = 3`, `p1 = 1`, `p2 = 2`. -/
theorem crcw_steps_antitone_witness :
    ((1 : Int) ≤ 1) ∧ ((1 : Int) ≤ 2) ∧
    pram_crcw_search ([10, 20, 30] : List Nat) 20 1 priority_rule = Except.ok (1, 3) ∧
    pram_crcw_search ([10, 20, 30] : List Nat) 20 2 priority_rule = Except.ok (1, 2) ∧
    ceil_div 3 2 ≤ ceil_div 3 1 := by
  have h := crcw_steps_antitone ([10, 20, 30] : List Nat) 20 1 2 (by decide) (by decide)
  refine ⟨by decide, by decide, ?_, ?_, ?_⟩
  · rw [h.1]
    rfl
  · rw [h.2.1]
    rfl
  · exact h.2.2

/-- C4: the CRCW step count is exactly `⌈n/p⌉`, never exceeds the EREW
step count, and equals it exactly when `p = 1`. -/
theorem crcw_le_erew_steps [DecidableEq α] (s : List α) (t : α) (p : Int)
    (hp : 1 ≤ p) (hn : 1 ≤ s.length) :
    pram_crcw_search s t p priority_rule =
      Except.ok (find s t, Int.ceil ((s.length : ℚ) / (p : ℚ))) ∧
    pram_erew_search s t p =
      Except.ok (find s t, Int.ceil ((s.length : ℚ) / (p : ℚ)) + reduction_steps p) ∧
    Int.ceil ((s.length : ℚ) / (p : ℚ)) ≤
      Int.ceil ((s.length : ℚ) / (p : ℚ)) + reduction_steps p ∧
    (Int.ceil ((s.length : ℚ) / (p : ℚ)) =
      Int.ceil ((s.length : ℚ) / (p : ℚ)) + reduction_steps p ↔ p = 1) := by
  have hp0 : p ≠ 0 := by omega
  have hceil := ceil_div_eq_ceil s.length p hp0
  refine ⟨?_, ?_, le_add_of_nonneg_right (reduction_steps_nonneg p), ?_⟩
  · rw [pram_crcw_search_eq s t p hp0 priority_rule, hceil]
  · rw [pram_erew_search_eq s t p hp0, hceil]
  · constructor
    · intro he
      by_contra hne
      have hgt : 1 < p := by omega
      have hpos := reduction_steps_pos p hgt
      omega
    · intro he
      rw [he, reduction_steps_of_le_one 1 le_rfl, add_zero]

/-- Witness for C4 at `n = 3`, `p = 1`: both models cost 3 steps. -/
theorem crcw_le_erew_steps_witness :
    ((1 : Int) ≤ 1) ∧ (1 ≤ ([10, 20, 30] : List Nat).length) ∧
    pram_crcw_search ([10, 20, 30] : List Nat) 20 1 priority_rule = Except.ok (1, 3) ∧
    pram_erew_search ([10, 20, 30] : List Nat) 20 1 = Except.ok (1, 3) := by
  have h := crcw_le_erew_steps ([10, 20, 30] : List Nat) 20 1 (by decide) (by decide)
  have hceil : Int.ceil ((([10, 20, 30] : List Nat).length : ℚ) / ((1 : Int) : ℚ)) =
      ceil_div 3 1 := (ceil_div_eq_ceil 3 1 (by decide)).symm
  refine ⟨by decide, by decide, ?_, ?_⟩
  · rw [h.1, hceil]
    rfl
  · rw [h.2.1, hceil]
    rfl

/-- C5 counterexample: at `p = -1 < 1` no search function signals an
error; all return a result whose step count is `-1`, and the aggregator
happily returns a mapping. -/
theorem invalid_p_no_failfast :
    ((-1 : Int) < 1) ∧
    pram_erew_search ([5] : List Nat) 5 (-1) = Except.ok (0, -1) ∧
    pram_crew_search ([5] : List Nat) 5 (-1) = Except.ok (0, -1) ∧
    pram_crcw_search ([5] : List Nat) 5 (-1) priority_rule = Except.ok (0, -1) ∧
    evaluate ([5] : List Nat) 5 (-1) =
      Except.ok
        { sequential := { index := 0, speedup := some 1, steps := 1 }
          erew := { index := 0, speedup := none, steps := -1 }
          crew := { index := 0, speedup := none, steps := -1 }
          crcw := { index := 0, speedup := none, steps := -1 } } ∧
    ((-1 : Int) < 0) :=
  ⟨by decide, rfl, rfl, rfl, rfl, by decide⟩

/-- C5 amended: there is no InvalidProcessorCount validation.  At `p = 0`
every search (and the aggregator) fails only with the ZeroDivisionError
raised inside `ceil(n / p)`; for `p < 0` every search returns a normal
result whose step count `ceil_div n p` is `≤ 0`. -/
theorem invalid_p_behavior [DecidableEq α] (s : List α) (t : α) (p : Int)
    (hp : p < 1) :
    (p = 0 →
      pram_erew_search s t p = Except.error ParaError.zeroDivisionError ∧
      pram_crew_search s t p = Except.error ParaError.zeroDivisionError ∧
      pram_crcw_search s t p priority_rule = Except.error ParaError.zeroDivisionError ∧
      evaluate s t p = Except.error ParaError.zeroDivisionError) ∧
    (p < 0 →
      pram_erew_search s t p = Except.ok (find s t, ceil_div s.length p) ∧
      pram_crew_search s t p = Except.ok (find s t, ceil_div s.length p) ∧
      pram_crcw_search s t p priority_rule = Except.ok (find s t, ceil_div s.length p) ∧
      ceil_div s.length p ≤ 0) := by
  constructor
  · intro h0
    subst h0
    exact ⟨by simp [pram_erew_search], by simp [pram_crew_search],
      by simp [pram_crcw_search], evaluate_zero s t⟩
  · intro hneg
    have hp0 : p ≠ 0 := by omega
    have hred : reduction_steps p = 0 := reduction_steps_of_le_one p (by omega)
    refine ⟨?_, ?_, pram_crcw_search_eq s t p hp0 priority_rule,
      ceil_div_nonpos s.length p hneg⟩
    · rw [pram_erew_search_eq s t p hp0, hred, add_zero]
    · rw [pram_crew_search_eq s t p hp0, hred, add_zero]

/-- Witness for the amended C5 at `p = -1`. -/
theorem invalid_p_behavior_witness :
    ((-1 : Int) < 1) ∧ ((-1 : Int) < 0) ∧
    pram_erew_search ([5] : List Nat) 6 (-1) = Except.ok (-1, -1) ∧
    ceil_div 1 (-1) ≤ 0 := by
  have h := (invalid_p_behavior ([5] : List Nat) 6 (-1) (by decide)).2 (by decide)
  refine ⟨by decide, by decide, ?_, h.2.2.2⟩
  rw [h.1]
  rfl

/-- C6 counterexample: passing the rule `"arbitrary"` to the CRCW search
does not raise any error; it silently returns the priority-rule result. -/
theorem crcw_rule_not_rejected :
    arbitrary_rule ≠ priority_rule ∧
    pram_crcw_search ([5] : List Nat) 5 1 arbitrary_rule = Except.ok (0, 1) :=
  ⟨by decide, rfl⟩

/-- C6 amended: the `rule` argument of `pram_crcw_search` is accepted but
ignored; every rule string produces exactly the priority-rule result. -/
theorem crcw_rule_ignored [DecidableEq α] (s : List α) (t : α) (p : Int)
    (hp : 1 ≤ p) (rule : String) :
    pram_crcw_search s t p rule = pram_crcw_search s t p priority_rule := rfl

/-- Witness for the amended C6 with the rule `"arbitrary"`. -/
theorem crcw_rule_ignored_witness :
    ((1 : Int) ≤ 1) ∧
    pram_crcw_search ([5] : List Nat) 5 1 arbitrary_rule =
      pram_crcw_search ([5] : List Nat) 5 1 priority_rule :=
  ⟨by decide, crcw_rule_ignored ([5] : List Nat) 5 1 (by decide) arbitrary_rule⟩

/-- C8 counterexample: at `p = -1` the aggregator returns a mapping whose
PRAM entries have speedup `+infinity` (modelled `none`) although their step
count is `-1`, not `0` — infinity is substituted for any non-positive step
count, not exactly at zero. -/
theorem speedup_inf_at_negative_steps :
    evaluate ([0] : List Nat) 0 (-1) =
      Except.ok
        { sequential := { index := 0, speedup := some 1, steps := 1 }
          erew := { index := 0, speedup := none, steps := -1 }
          crew := { index := 0, speedup := none, steps := -1 }
          crcw := { index := 0, speedup := none, steps := -1 } } ∧
    ((-1 : Int) ≠ 0) :=
  ⟨rfl, by decide⟩

/-- C8 amended: in every mapping the aggregator returns, the Sequential
entry's speedup is exactly 1, and each PRAM entry's speedup is the exact
ratio of the sequential step count to that entry's step count whenever the
latter is positive, and `+infinity` (modelled `none`) exactly when it is
nonpositive. -/
theorem speedup_fields [DecidableEq α] (s : List α) (t : α) (p : Int)
    (r : EvalResult) (h : evaluate s t p = Except.ok r) :
    r.sequential.speedup = some 1 ∧
    (∀ e : EvalEntry, (e = r.erew ∨ e = r.crew ∨ e = r.crcw) →
      (0 < e.steps → e.speedup = some (((seq_search s t).2 : ℚ) / (e.steps : ℚ))) ∧
      (e.steps ≤ 0 → e.speedup = none)) := by
  by_cases hp : p = 0
  · rw [hp, evaluate_zero] at h
    exact absurd h (by simp)
  · rw [evaluate_of_ne_zero s t p hp] at h
    injection h with h1
    subst h1
    constructor
    · rfl
    · intro e he
      rcases he with he | he | he <;> subst he <;>
        exact ⟨fun hst => by
            dsimp only at hst ⊢
            simp only [spd]
            rw [if_pos hst],
          fun hst => by
            dsimp only at hst ⊢
            simp only [spd]
            rw [if_neg (not_lt.mpr hst)]⟩

/-- Witness for the amended C8 at `n = 1`, `p = 1`: the EREW entry's
speedup is the exact ratio `1 / 1`. -/
theorem speedup_fields_witness :
    spd 1 1 = some (((1 : Nat) : ℚ) / ((1 : Int) : ℚ)) := by
  have h : evaluate ([0] : List Nat) 0 1 = Except.ok
      { sequential := { index := 0, speedup := some 1, steps := 1 }
        erew := { index := 0, speedup := spd 1 1, steps := 1 }
        crew := { index := 0, speedup := spd 1 1, steps := 1 }
        crcw := { index := 0, speedup := spd 1 1, steps := 1 } } := rfl
  have hm := speedup_fields ([0] : List Nat) 0 1 _ h
  exact (hm.2 { index := 0, speedup := spd 1 1, steps := 1 } (Or.inl rfl)).1 (by decide)

end ParaComp
